import Mathlib

/-!
Verification of the compact knowledge-graph condensation pipeline
(`KG_preprocessing.py`): row validation, entity loading with skip-and-continue
error handling, document assembly, and deterministic serialization.

The embedding models a CSV row as an association list from column names to
string values (`csv.DictReader` yields such mappings; `row.get` is an
optional lookup).  The filesystem inputs of the loaders are passed
explicitly: the gene loader receives its file path together with the parsed
rows of that file, and the term/edge loaders receive a directory listing as
a list of (file name, parsed rows) pairs.
-/

namespace KG

/-- A parsed CSV data row: column name to value, as produced by
`csv.DictReader`. -/
abbrev Row := List (String × String)

/-- `row.get(key)`: optional lookup of a column value, `none` when the
column is absent. -/
def rowGet (row : Row) (k : String) : Option String :=
  List.lookup k row

/-- Python truthiness of `row.get(key)`: `False` for `None` and for the
empty string. -/
def truthy : Option String → Bool
  | none => false
  | some s => s ≠ ""

/-- The message of the `ValueError` raised for an invalid gene row. -/
def geneMissingMsg : String := "Gene row is missing required \x27label\x27 column"

/-- The message of the `ValueError` raised for an invalid term row. -/
def termMissingMsg : String := "Term row is missing required \x27label\x27 column"

/-- The message of the `ValueError` raised for an invalid edge row. -/
def edgeMissingMsg : String :=
  "Edge row is missing required \x27source_label\x27, \x27relation\x27, or \x27target_label\x27 column"

/-- Gene node retaining only the `label` field. -/
structure GeneNode where
  label : String
deriving DecidableEq, Repr

/-- `GeneNode.from_row`: `label = row.get("label"); if not label: raise
ValueError(...); return cls(label=label)`. -/
def GeneNode.from_row (row : Row) : Except String GeneNode :=
  match rowGet row "label" with
  | none => .error geneMissingMsg
  | some label => if label = "" then .error geneMissingMsg else .ok ⟨label⟩

/-- Term node retaining only the `label` field. -/
structure TermNode where
  label : String
deriving DecidableEq, Repr

/-- `TermNode.from_row`: same shape as the gene validator. -/
def TermNode.from_row (row : Row) : Except String TermNode :=
  match rowGet row "label" with
  | none => .error termMissingMsg
  | some label => if label = "" then .error termMissingMsg else .ok ⟨label⟩

/-- Edge representation limited to labels and relation identifiers. -/
structure Edge where
  source_label : String
  relation : String
  target_label : String
deriving DecidableEq, Repr

/-- `Edge.from_row`: reads the three columns with `row.get` and raises when
any of the three values is falsy (absent or empty). -/
def Edge.from_row (row : Row) : Except String Edge :=
  match rowGet row "source_label", rowGet row "relation",
        rowGet row "target_label" with
  | some s, some r, some t =>
      if s = "" ∨ r = "" ∨ t = "" then .error edgeMissingMsg else .ok ⟨s, r, t⟩
  | _, _, _ => .error edgeMissingMsg

/-- One "Skipping invalid ... row #idx in fname: reason" diagnostic printed
by a loader when a row fails validation. -/
structure Diagnostic where
  fname : String
  rowIdx : Nat
  reason : String
deriving DecidableEq, Repr

/-- The per-row loop of `load_gene_nodes`: `for idx, row in
enumerate(rows, start=1): try append / except print-and-skip`.  Returns the
accumulated entities together with the emitted diagnostics. -/
def geneRowsLoop (fname : String) (idx : Nat) :
    List Row → List GeneNode × List Diagnostic
  | [] => ([], [])
  | row :: rest =>
      let tail := geneRowsLoop fname (idx + 1) rest
      match GeneNode.from_row row with
      | .ok g => (g :: tail.1, tail.2)
      | .error e => (tail.1, ⟨fname, idx, e⟩ :: tail.2)

/-- `load_gene_nodes`: reads the rows of the single gene file and runs the
validation loop with 1-based row indices. -/
def load_gene_nodes (fname : String) (rows : List Row) :
    List GeneNode × List Diagnostic :=
  geneRowsLoop fname 1 rows

/-- A source file of a term/edge directory: its name and its parsed rows. -/
abbrev SrcFile := String × List Row

/-- Insert a file into a name-sorted file list (stable, matching Python
`sorted`). -/
def insertFile (f : SrcFile) : List SrcFile → List SrcFile
  | [] => [f]
  | g :: gs => if g.1 < f.1 then g :: insertFile f gs else f :: g :: gs

/-- Sort a directory listing by file name (Python `sorted` over paths that
share the directory compares the file names lexicographically). -/
def sortFiles : List SrcFile → List SrcFile
  | [] => []
  | f :: fs => insertFile f (sortFiles fs)

/-- `sorted(dir.glob("*.csv"))`: the files whose name matches `*.csv`, in
lexicographically sorted name order. -/
def globCsv (dir : List SrcFile) : List SrcFile :=
  sortFiles (dir.filter fun f => f.1.endsWith ".csv")

/-- The per-row loop of `load_term_nodes` for one file. -/
def termRowsLoop (fname : String) (idx : Nat) :
    List Row → List TermNode × List Diagnostic
  | [] => ([], [])
  | row :: rest =>
      let tail := termRowsLoop fname (idx + 1) rest
      match TermNode.from_row row with
      | .ok t => (t :: tail.1, tail.2)
      | .error e => (tail.1, ⟨fname, idx, e⟩ :: tail.2)

/-- The outer loop of `load_term_nodes` over the globbed files: one shared
accumulating list across all files. -/
def termFilesLoop : List SrcFile → List TermNode × List Diagnostic
  | [] => ([], [])
  | f :: fs =>
      let here := termRowsLoop f.1 1 f.2
      let rest := termFilesLoop fs
      (here.1 ++ rest.1, here.2 ++ rest.2)

/-- `load_term_nodes`: glob the directory, sort by file name, and run the
validation loop over each file in order. -/
def load_term_nodes (term_dir : List SrcFile) :
    List TermNode × List Diagnostic :=
  termFilesLoop (globCsv term_dir)

/-- The per-row loop of `load_edges` for one file. -/
def edgeRowsLoop (fname : String) (idx : Nat) :
    List Row → List Edge × List Diagnostic
  | [] => ([], [])
  | row :: rest =>
      let tail := edgeRowsLoop fname (idx + 1) rest
      match Edge.from_row row with
      | .ok e => (e :: tail.1, tail.2)
      | .error m => (tail.1, ⟨fname, idx, m⟩ :: tail.2)

/-- The outer loop of `load_edges` over the globbed files. -/
def edgeFilesLoop : List SrcFile → List Edge × List Diagnostic
  | [] => ([], [])
  | f :: fs =>
      let here := edgeRowsLoop f.1 1 f.2
      let rest := edgeFilesLoop fs
      (here.1 ++ rest.1, here.2 ++ rest.2)

/-- `load_edges`: glob the directory, sort by file name, and run the
validation loop over each file in order. -/
def load_edges (edge_dir : List SrcFile) : List Edge × List Diagnostic :=
  edgeFilesLoop (globCsv edge_dir)

/-- A JSON value as produced by the assembler and consumed by `json.dump`.
Objects keep their key insertion order, mirroring `OrderedDict`/`dict`. -/
inductive JValue where
  | str : String → JValue
  | num : Nat → JValue
  | arr : List JValue → JValue
  | obj : List (String × JValue) → JValue
deriving Repr

/-- `gene.__dict__`: the flat field mapping of a gene node. -/
def geneJson (g : GeneNode) : JValue := .obj [("label", .str g.label)]

/-- `term.__dict__`: the flat field mapping of a term node. -/
def termJson (t : TermNode) : JValue := .obj [("label", .str t.label)]

/-- `edge.__dict__`: the flat field mapping of an edge, in declared
attribute order. -/
def edgeJson (e : Edge) : JValue :=
  .obj [("source_label", .str e.source_label), ("relation", .str e.relation),
        ("target_label", .str e.target_label)]

/-- `build_knowledge_graph`: assembles the payload `OrderedDict` by
inserting `counts`, `genes`, `terms`, `triples` in that order; `counts`
holds the three sequence lengths. -/
def build_knowledge_graph (gene_nodes : List GeneNode)
    (term_nodes : List TermNode) (edges : List Edge) :
    List (String × JValue) :=
  [("counts", .obj [("genes", .num gene_nodes.length),
                    ("terms", .num term_nodes.length),
                    ("triples", .num edges.length)]),
   ("genes", .arr (gene_nodes.map geneJson)),
   ("terms", .arr (term_nodes.map termJson)),
   ("triples", .arr (edges.map edgeJson))]

/-- Lower-case hex digit of a value below 16. -/
def hexDigit (n : Nat) : Char :=
  if n < 10 then Char.ofNat (48 + n) else Char.ofNat (87 + n)

/-- JSON string escaping as performed by `json.dump` with
`ensure_ascii=False`: only the backslash, the double quote and control
characters are escaped; all other characters (non-ASCII included) are kept
verbatim. -/
def escapeChar (c : Char) : String :=
  if c = '\\' then "\\\\"
  else if c = Char.ofNat 34 then "\\\""
  else if c = Char.ofNat 10 then "\\n"
  else if c = Char.ofNat 9 then "\\t"
  else if c = Char.ofNat 13 then "\\r"
  else if c = Char.ofNat 8 then "\\b"
  else if c = Char.ofNat 12 then "\\f"
  else if c.toNat < 32 then
    "\\u00" ++ String.mk [hexDigit (c.toNat / 16), hexDigit (c.toNat % 16)]
  else String.singleton c

/-- Render a string as a quoted, escaped JSON string literal. -/
def quoteStr (s : String) : String :=
  "\"" ++ String.join (s.data.map escapeChar) ++ "\""

/-- `n` spaces of indentation. -/
def spaces (n : Nat) : String := String.mk (List.replicate n ' ')

mutual

/-- Render a JSON value as `json.dump(..., ensure_ascii=False, indent=2)`
does, `lvl` being the indentation level at which the value starts. -/
def renderJ (lvl : Nat) : JValue → String
  | .str s => quoteStr s
  | .num n => toString n
  | .arr [] => "[]"
  | .arr (x :: xs) =>
      "[\n" ++ renderArr (lvl + 1) x xs ++ "\n" ++ spaces (2 * lvl) ++ "]"
  | .obj [] => "\x7b\x7d"
  | .obj ((k, v) :: fs) =>
      "\x7b\n" ++ renderObj (lvl + 1) k v fs ++ "\n" ++ spaces (2 * lvl) ++
        "\x7d"
termination_by v => sizeOf v
decreasing_by all_goals (simp_wf; omega)

/-- Render the comma-and-newline separated items of a non-empty array. -/
def renderArr (lvl : Nat) (x : JValue) : List JValue → String
  | [] => spaces (2 * lvl) ++ renderJ lvl x
  | y :: ys => spaces (2 * lvl) ++ renderJ lvl x ++ ",\n" ++ renderArr lvl y ys
termination_by l => sizeOf x + sizeOf l
decreasing_by all_goals (simp_wf <;> omega)

/-- Render the comma-and-newline separated fields of a non-empty object. -/
def renderObj (lvl : Nat) (k : String) (v : JValue) :
    List (String × JValue) → String
  | [] => spaces (2 * lvl) ++ quoteStr k ++ ": " ++ renderJ lvl v
  | (k2, v2) :: gs =>
      spaces (2 * lvl) ++ quoteStr k ++ ": " ++ renderJ lvl v ++ ",\n" ++
        renderObj lvl k2 v2 gs
termination_by l => sizeOf v + sizeOf l
decreasing_by all_goals (simp_wf <;> omega)

end

/-- `json.dump(kg_payload, f, ensure_ascii=False, indent=2)`: the byte
content written to the output file. -/
def serializeDoc (doc : List (String × JValue)) : String :=
  renderJ 0 (.obj doc)

/-- The input state of one pipeline run: the gene file (path and parsed
rows) and the term/edge directory listings. -/
structure DataRoot where
  gene_file : SrcFile
  term_dir : List SrcFile
  edge_dir : List SrcFile
deriving DecidableEq

/-- `main` minus argument parsing and file I/O: load the three entity
collections, assemble the payload, and serialize it. -/
def runPipeline (root : DataRoot) : String :=
  let gene_nodes := (load_gene_nodes root.gene_file.1 root.gene_file.2).1
  let term_nodes := (load_term_nodes root.term_dir).1
  let edges := (load_edges root.edge_dir).1
  serializeDoc (build_knowledge_graph gene_nodes term_nodes edges)

/-- Does `pat` occur at the start of `cs`? -/
def charsStartWith : List Char → List Char → Bool
  | _, [] => true
  | [], _ :: _ => false
  | c :: cs, d :: ds => c = d && charsStartWith cs ds

/-- Does `pat` occur anywhere in `cs`? -/
def charsContain (cs : List Char) (pat : List Char) : Bool :=
  match cs with
  | [] => pat.isEmpty
  | c :: rest => charsStartWith (c :: rest) pat || charsContain rest pat

/-- Substring test: does `pat` occur in `hay`? -/
def strContains (hay pat : String) : Bool :=
  charsContain hay.data pat.data

/-- Observation function: recover a gene node from its rendered field
mapping (left inverse of `geneJson`; used to state that the document
retains the input sequence exactly). -/
def geneOfJson : JValue → Option GeneNode
  | .obj [("label", .str s)] => some ⟨s⟩
  | _ => none

/-- Observation function: recover a term node from its rendered field
mapping. -/
def termOfJson : JValue → Option TermNode
  | .obj [("label", .str s)] => some ⟨s⟩
  | _ => none

/-- Observation function: recover an edge from its rendered field
mapping. -/
def edgeOfJson : JValue → Option Edge
  | .obj [("source_label", .str s), ("relation", .str r),
          ("target_label", .str t)] => some ⟨s, r, t⟩
  | _ => none

/-- A small concrete input state, used to witness hypotheses at a concrete
point. -/
def sampleRoot : DataRoot where
  gene_file := ("data/gene_node/Gene.nodes.csv",
                [[("label", "TP53")], [("label", "")], [("label", "BRCA1")]])
  term_dir := [("b.csv", [[("label", "GO:0002")]]),
               ("a.csv", [[("label", "GO:0001")]])]
  edge_dir := [("edges.csv",
                [[("source_label", "GO:0001"), ("relation", "involves"),
                  ("target_label", "TP53")]])]

/-! ## General lemmas about the loaders -/

/-- The entities accumulated by the gene row loop are exactly the
successfully validated rows, in row order; the starting index is
irrelevant to the entity list. -/
theorem geneRowsLoop_entities (fname : String) (idx : Nat) (rows : List Row) :
    (geneRowsLoop fname idx rows).1 =
      rows.filterMap fun r => (GeneNode.from_row r).toOption := by
  induction rows generalizing idx with
  | nil => rfl
  | cons r rs ih =>
      simp only [geneRowsLoop, List.filterMap_cons]
      cases h : GeneNode.from_row r <;>
        simp [h, Except.toOption, ih (idx + 1)]

/-- Term-loop analogue of `geneRowsLoop_entities`. -/
theorem termRowsLoop_entities (fname : String) (idx : Nat) (rows : List Row) :
    (termRowsLoop fname idx rows).1 =
      rows.filterMap fun r => (TermNode.from_row r).toOption := by
  induction rows generalizing idx with
  | nil => rfl
  | cons r rs ih =>
      simp only [termRowsLoop, List.filterMap_cons]
      cases h : TermNode.from_row r <;>
        simp [h, Except.toOption, ih (idx + 1)]

/-- Edge-loop analogue of `geneRowsLoop_entities`. -/
theorem edgeRowsLoop_entities (fname : String) (idx : Nat) (rows : List Row) :
    (edgeRowsLoop fname idx rows).1 =
      rows.filterMap fun r => (Except.toOption (Edge.from_row r)) := by
  induction rows generalizing idx with
  | nil => rfl
  | cons r rs ih =>
      simp only [edgeRowsLoop, List.filterMap_cons]
      cases h : Edge.from_row r <;>
        simp [h, Except.toOption, ih (idx + 1)]

/-- Every row contributes exactly one entity or exactly one diagnostic. -/
theorem geneRowsLoop_length (fname : String) (idx : Nat) (rows : List Row) :
    (geneRowsLoop fname idx rows).1.length +
      (geneRowsLoop fname idx rows).2.length = rows.length := by
  induction rows generalizing idx with
  | nil => rfl
  | cons r rs ih =>
      have h2 := ih (idx + 1)
      simp only [geneRowsLoop, List.length_cons]
      cases h : GeneNode.from_row r <;>
        simp [h, List.length_cons] <;> omega

/-- Term-loop analogue of `geneRowsLoop_length`. -/
theorem termRowsLoop_length (fname : String) (idx : Nat) (rows : List Row) :
    (termRowsLoop fname idx rows).1.length +
      (termRowsLoop fname idx rows).2.length = rows.length := by
  induction rows generalizing idx with
  | nil => rfl
  | cons r rs ih =>
      have h2 := ih (idx + 1)
      simp only [termRowsLoop, List.length_cons]
      cases h : TermNode.from_row r <;>
        simp [h, List.length_cons] <;> omega

/-- Edge-loop analogue of `geneRowsLoop_length`. -/
theorem edgeRowsLoop_length (fname : String) (idx : Nat) (rows : List Row) :
    (edgeRowsLoop fname idx rows).1.length +
      (edgeRowsLoop fname idx rows).2.length = rows.length := by
  induction rows generalizing idx with
  | nil => rfl
  | cons r rs ih =>
      have h2 := ih (idx + 1)
      simp only [edgeRowsLoop, List.length_cons]
      cases h : Edge.from_row r <;>
        simp [h, List.length_cons] <;> omega

/-- Every diagnostic of the gene row loop carries the file path the loop
was run on. -/
theorem geneRowsLoop_fname (fname : String) (idx : Nat) (rows : List Row) :
    ∀ d ∈ (geneRowsLoop fname idx rows).2, d.fname = fname := by
  induction rows generalizing idx with
  | nil => intro d hd; cases hd
  | cons r rs ih =>
      intro d hd
      simp only [geneRowsLoop] at hd
      cases h : GeneNode.from_row r with
      | ok g => rw [h] at hd; exact ih (idx + 1) d hd
      | error e =>
          rw [h] at hd
          rcases List.mem_cons.mp hd with h1 | h1
          · rw [h1]
          · exact ih (idx + 1) d h1

/-- Term analogue of `geneRowsLoop_fname`. -/
theorem termRowsLoop_fname (fname : String) (idx : Nat) (rows : List Row) :
    ∀ d ∈ (termRowsLoop fname idx rows).2, d.fname = fname := by
  induction rows generalizing idx with
  | nil => intro d hd; cases hd
  | cons r rs ih =>
      intro d hd
      simp only [termRowsLoop] at hd
      cases h : TermNode.from_row r with
      | ok g => rw [h] at hd; exact ih (idx + 1) d hd
      | error e =>
          rw [h] at hd
          rcases List.mem_cons.mp hd with h1 | h1
          · rw [h1]
          · exact ih (idx + 1) d h1

/-- Edge analogue of `geneRowsLoop_fname`. -/
theorem edgeRowsLoop_fname (fname : String) (idx : Nat) (rows : List Row) :
    ∀ d ∈ (edgeRowsLoop fname idx rows).2, d.fname = fname := by
  induction rows generalizing idx with
  | nil => intro d hd; cases hd
  | cons r rs ih =>
      intro d hd
      simp only [edgeRowsLoop] at hd
      cases h : Edge.from_row r with
      | ok g => rw [h] at hd; exact ih (idx + 1) d hd
      | error e =>
          rw [h] at hd
          rcases List.mem_cons.mp hd with h1 | h1
          · rw [h1]
          · exact ih (idx + 1) d h1

/-- The term entities accumulated over a file list are the concatenation of
the per-file valid-entity segments, in file-list order. -/
theorem termFilesLoop_entities (fs : List SrcFile) :
    (termFilesLoop fs).1 =
      (fs.map fun f =>
        f.2.filterMap fun r => (TermNode.from_row r).toOption).flatten := by
  induction fs with
  | nil => rfl
  | cons f fs ih =>
      simp [termFilesLoop, termRowsLoop_entities, ih]

/-- Edge analogue of `termFilesLoop_entities`. -/
theorem edgeFilesLoop_entities (fs : List SrcFile) :
    (edgeFilesLoop fs).1 =
      (fs.map fun f =>
        f.2.filterMap fun r => (Edge.from_row r).toOption).flatten := by
  induction fs with
  | nil => rfl
  | cons f fs ih =>
      simp [edgeFilesLoop, edgeRowsLoop_entities, ih]

/-- Row accounting for the term files loop: entities plus diagnostics equal
the total number of data rows across the files. -/
theorem termFilesLoop_length (fs : List SrcFile) :
    (termFilesLoop fs).1.length + (termFilesLoop fs).2.length =
      (fs.map fun f => f.2.length).sum := by
  induction fs with
  | nil => rfl
  | cons f fs ih =>
      have h1 := termRowsLoop_length f.1 1 f.2
      simp only [termFilesLoop, List.map_cons, List.sum_cons,
        List.length_append]
      omega

/-- Edge analogue of `termFilesLoop_length`. -/
theorem edgeFilesLoop_length (fs : List SrcFile) :
    (edgeFilesLoop fs).1.length + (edgeFilesLoop fs).2.length =
      (fs.map fun f => f.2.length).sum := by
  induction fs with
  | nil => rfl
  | cons f fs ih =>
      have h1 := edgeRowsLoop_length f.1 1 f.2
      simp only [edgeFilesLoop, List.map_cons, List.sum_cons,
        List.length_append]
      omega

/-- Every diagnostic of the term files loop carries the name of one of the
processed files. -/
theorem termFilesLoop_fname (fs : List SrcFile) :
    ∀ d ∈ (termFilesLoop fs).2, ∃ f ∈ fs, d.fname = f.1 := by
  induction fs with
  | nil => intro d hd; cases hd
  | cons f fs ih =>
      intro d hd
      simp only [termFilesLoop] at hd
      rcases List.mem_append.mp hd with h1 | h1
      · exact ⟨f, List.mem_cons_self f fs, termRowsLoop_fname f.1 1 f.2 d h1⟩
      · rcases ih d h1 with ⟨g, hg, he⟩
        exact ⟨g, List.mem_cons_of_mem f hg, he⟩

/-- Edge analogue of `termFilesLoop_fname`. -/
theorem edgeFilesLoop_fname (fs : List SrcFile) :
    ∀ d ∈ (edgeFilesLoop fs).2, ∃ f ∈ fs, d.fname = f.1 := by
  induction fs with
  | nil => intro d hd; cases hd
  | cons f fs ih =>
      intro d hd
      simp only [edgeFilesLoop] at hd
      rcases List.mem_append.mp hd with h1 | h1
      · exact ⟨f, List.mem_cons_self f fs, edgeRowsLoop_fname f.1 1 f.2 d h1⟩
      · rcases ih d h1 with ⟨g, hg, he⟩
        exact ⟨g, List.mem_cons_of_mem f hg, he⟩

/-! ## Lemmas about the row validators -/

/-- The gene validator fails exactly when the `label` column is absent or
the empty string. -/
theorem gene_from_row_fail_iff (row : Row) :
    (GeneNode.from_row row).toOption = none ↔
      rowGet row "label" = none ∨ rowGet row "label" = some "" := by
  cases h : rowGet row "label" with
  | none => simp [GeneNode.from_row, h, Except.toOption]
  | some s =>
      by_cases hs : s = "" <;>
        simp [GeneNode.from_row, h, hs, Except.toOption]

/-- Term analogue of `gene_from_row_fail_iff`. -/
theorem term_from_row_fail_iff (row : Row) :
    (TermNode.from_row row).toOption = none ↔
      rowGet row "label" = none ∨ rowGet row "label" = some "" := by
  cases h : rowGet row "label" with
  | none => simp [TermNode.from_row, h, Except.toOption]
  | some s =>
      by_cases hs : s = "" <;>
        simp [TermNode.from_row, h, hs, Except.toOption]

/-- The edge validator fails exactly when one of the three required
columns is absent or the empty string. -/
theorem edge_from_row_fail_iff (row : Row) :
    (Edge.from_row row).toOption = none ↔
      rowGet row "source_label" = none ∨ rowGet row "source_label" = some "" ∨
      rowGet row "relation" = none ∨ rowGet row "relation" = some "" ∨
      rowGet row "target_label" = none ∨
        rowGet row "target_label" = some "" := by
  cases hs : rowGet row "source_label" with
  | none => simp [Edge.from_row, hs, Except.toOption]
  | some s =>
      cases hr : rowGet row "relation" with
      | none => simp [Edge.from_row, hs, hr, Except.toOption]
      | some r =>
          cases ht : rowGet row "target_label" with
          | none => simp [Edge.from_row, hs, hr, ht, Except.toOption]
          | some t =>
              by_cases h1 : s = "" <;> by_cases h2 : r = "" <;>
                by_cases h3 : t = "" <;>
                simp [Edge.from_row, hs, hr, ht, h1, h2, h3, Except.toOption]

/-- A successfully validated gene node carries the `label` column value
verbatim. -/
theorem gene_from_row_ok_label (row : Row) (g : GeneNode)
    (h : GeneNode.from_row row = .ok g) :
    rowGet row "label" = some g.label := by
  cases hl : rowGet row "label" with
  | none => simp [GeneNode.from_row, hl] at h
  | some s =>
      by_cases hs : s = ""
      · simp [GeneNode.from_row, hl, hs] at h
      · simp only [GeneNode.from_row, hl, if_neg hs] at h
        cases h
        rfl

/-- Term analogue of `gene_from_row_ok_label`. -/
theorem term_from_row_ok_label (row : Row) (t : TermNode)
    (h : TermNode.from_row row = .ok t) :
    rowGet row "label" = some t.label := by
  cases hl : rowGet row "label" with
  | none => simp [TermNode.from_row, hl] at h
  | some s =>
      by_cases hs : s = ""
      · simp [TermNode.from_row, hl, hs] at h
      · simp only [TermNode.from_row, hl, if_neg hs] at h
        cases h
        rfl

/-- A successfully validated edge carries all three column values
verbatim. -/
theorem edge_from_row_ok_fields (row : Row) (e : Edge)
    (h : Edge.from_row row = .ok e) :
    rowGet row "source_label" = some e.source_label ∧
    rowGet row "relation" = some e.relation ∧
    rowGet row "target_label" = some e.target_label := by
  cases hs : rowGet row "source_label" with
  | none => simp [Edge.from_row, hs] at h
  | some s =>
      cases hr : rowGet row "relation" with
      | none => simp [Edge.from_row, hs, hr] at h
      | some r =>
          cases ht : rowGet row "target_label" with
          | none => simp [Edge.from_row, hs, hr, ht] at h
          | some t =>
              by_cases hc : s = "" ∨ r = "" ∨ t = ""
              · simp [Edge.from_row, hs, hr, ht, if_pos hc] at h
              · simp only [Edge.from_row, hs, hr, ht, if_neg hc] at h
                cases h
                exact ⟨rfl, rfl, rfl⟩

/-- The gene validator only ever fails with its fixed message. -/
theorem gene_from_row_error_msg (row : Row) (e : String)
    (h : GeneNode.from_row row = .error e) : e = geneMissingMsg := by
  cases hl : rowGet row "label" with
  | none =>
      simp [GeneNode.from_row, hl] at h
      exact h.symm
  | some s =>
      by_cases hs : s = ""
      · simp [GeneNode.from_row, hl, hs] at h
        exact h.symm
      · simp [GeneNode.from_row, hl, hs] at h

/-- Term analogue of `gene_from_row_error_msg`. -/
theorem term_from_row_error_msg (row : Row) (e : String)
    (h : TermNode.from_row row = .error e) : e = termMissingMsg := by
  cases hl : rowGet row "label" with
  | none =>
      simp [TermNode.from_row, hl] at h
      exact h.symm
  | some s =>
      by_cases hs : s = ""
      · simp [TermNode.from_row, hl, hs] at h
        exact h.symm
      · simp [TermNode.from_row, hl, hs] at h

/-- Edge analogue of `gene_from_row_error_msg`. -/
theorem edge_from_row_error_msg (row : Row) (m : String)
    (h : Edge.from_row row = .error m) : m = edgeMissingMsg := by
  cases hs : rowGet row "source_label" with
  | none =>
      simp [Edge.from_row, hs] at h
      exact h.symm
  | some s =>
      cases hr : rowGet row "relation" with
      | none =>
          simp [Edge.from_row, hs, hr] at h
          exact h.symm
      | some r =>
          cases ht : rowGet row "target_label" with
          | none =>
              simp [Edge.from_row, hs, hr, ht] at h
              exact h.symm
          | some t =>
              by_cases hc : s = "" ∨ r = "" ∨ t = ""
              · simp [Edge.from_row, hs, hr, ht, if_pos hc] at h
                exact h.symm
              · simp [Edge.from_row, hs, hr, ht, if_neg hc] at h

/-! ## Lemmas about the file-name sort -/

/-- Order on directory entries: by file name. -/
def fileLe (f g : SrcFile) : Prop := f.1 ≤ g.1

instance : DecidableRel fileLe :=
  fun f g => inferInstanceAs (Decidable (f.1 ≤ g.1))

instance : IsTotal SrcFile fileLe := ⟨fun f g => le_total f.1 g.1⟩

instance : IsTrans SrcFile fileLe := ⟨fun _ _ _ h1 h2 => le_trans h1 h2⟩

/-- `insertFile` is ordered insertion with respect to `fileLe`. -/
theorem insertFile_eq_orderedInsert (f : SrcFile) (l : List SrcFile) :
    insertFile f l = List.orderedInsert fileLe f l := by
  induction l with
  | nil => rfl
  | cons g gs ih =>
      simp only [insertFile, List.orderedInsert]
      by_cases h : fileLe f g
      · rw [if_neg (not_lt.mpr h), if_pos h]
      · rw [if_pos (not_le.mp h), if_neg h, ih]

/-- `sortFiles` is insertion sort with respect to `fileLe`. -/
theorem sortFiles_eq_insertionSort (l : List SrcFile) :
    sortFiles l = List.insertionSort fileLe l := by
  induction l with
  | nil => rfl
  | cons f fs ih =>
      simp only [sortFiles, List.insertionSort, ih,
        insertFile_eq_orderedInsert]

/-- The globbed file list is sorted by file name. -/
theorem globCsv_sorted (dir : List SrcFile) :
    (globCsv dir).Pairwise fileLe := by
  rw [globCsv, sortFiles_eq_insertionSort]
  exact List.sorted_insertionSort fileLe _

/-- The globbed file list is a permutation of the `.csv` entries of the
directory. -/
theorem globCsv_perm (dir : List SrcFile) :
    (globCsv dir).Perm (dir.filter fun f => f.1.endsWith ".csv") := by
  rw [globCsv, sortFiles_eq_insertionSort]
  exact List.perm_insertionSort fileLe _

/-- Dropping the rows on which a partial function fails does not change its
collected successes. -/
theorem filterMap_filter_isSome {α β : Type} (f : α → Option β)
    (l : List α) :
    (l.filter fun a => (f a).isSome).filterMap f = l.filterMap f := by
  induction l with
  | nil => rfl
  | cons a l ih =>
      cases h : f a with
      | none => simp [List.filter_cons, List.filterMap_cons, h, ih]
      | some b => simp [List.filter_cons, List.filterMap_cons, h, ih]

/-- Decoding the rendered gene array recovers the input sequence exactly:
same elements, same order, duplicates retained. -/
theorem map_filterMap_gene (gs : List GeneNode) :
    (gs.map geneJson).filterMap geneOfJson = gs := by
  induction gs with
  | nil => rfl
  | cons g gs ih => simp [geneJson, geneOfJson, List.filterMap_cons, ih]

/-- Term analogue of `map_filterMap_gene`. -/
theorem map_filterMap_term (ts : List TermNode) :
    (ts.map termJson).filterMap termOfJson = ts := by
  induction ts with
  | nil => rfl
  | cons t ts ih => simp [termJson, termOfJson, List.filterMap_cons, ih]

/-- Edge analogue of `map_filterMap_gene`. -/
theorem map_filterMap_edge (es : List Edge) :
    (es.map edgeJson).filterMap edgeOfJson = es := by
  induction es with
  | nil => rfl
  | cons e es ih => simp [edgeJson, edgeOfJson, List.filterMap_cons, ih]

/-! ## Claims -/

/-- C1 (counterexample): a gene row whose `label` value is the
whitespace-only string " " passes validation and is loaded with no
diagnostic — the source's `if not label` check accepts any non-empty
string, so a whitespace-only required field is not rejected. -/
theorem c1_whitespace_label_accepted :
    GeneNode.from_row [("label", " ")] = Except.ok ⟨" "⟩ ∧
    (load_gene_nodes "Gene.nodes.csv" [[("label", " ")]]).1 = [⟨" "⟩] ∧
    (load_gene_nodes "Gene.nodes.csv" [[("label", " ")]]).2 = [] :=
  ⟨rfl, rfl, rfl⟩

/-- C1 (amended): each row validator fails exactly when at least one
required field of its kind is absent or the empty string; a whitespace-only
value is accepted (and passed through verbatim). -/
theorem c1_validators_fail_iff_absent_or_empty :
    (∀ row : Row, (GeneNode.from_row row).toOption = none ↔
        rowGet row "label" = none ∨ rowGet row "label" = some "") ∧
    (∀ row : Row, (TermNode.from_row row).toOption = none ↔
        rowGet row "label" = none ∨ rowGet row "label" = some "") ∧
    (∀ row : Row, (Edge.from_row row).toOption = none ↔
        rowGet row "source_label" = none ∨
        rowGet row "source_label" = some "" ∨
        rowGet row "relation" = none ∨ rowGet row "relation" = some "" ∨
        rowGet row "target_label" = none ∨
        rowGet row "target_label" = some "") :=
  ⟨gene_from_row_fail_iff, term_from_row_fail_iff, edge_from_row_fail_iff⟩

/-- C2: for all inputs, the document's `counts` block records exactly the
three input sequence lengths, and `counts` is the first field of the
document (the key order is `counts`, `genes`, `terms`, `triples`). -/
theorem c2_counts_first_and_correct (gs : List GeneNode) (ts : List TermNode)
    (es : List Edge) :
    (build_knowledge_graph gs ts es).head? =
      some ("counts",
        .obj [("genes", .num gs.length), ("terms", .num ts.length),
              ("triples", .num es.length)]) ∧
    (build_knowledge_graph gs ts es).map Prod.fst =
      ["counts", "genes", "terms", "triples"] :=
  ⟨rfl, rfl⟩

/-- C3: on every row that validates, each field of the constructed entity
is string-equal to the corresponding column value of the source row —
no trimming, case change, or other transformation. -/
theorem c3_valid_rows_verbatim :
    (∀ (row : Row) (g : GeneNode), GeneNode.from_row row = .ok g →
        rowGet row "label" = some g.label) ∧
    (∀ (row : Row) (t : TermNode), TermNode.from_row row = .ok t →
        rowGet row "label" = some t.label) ∧
    (∀ (row : Row) (e : Edge), Edge.from_row row = .ok e →
        rowGet row "source_label" = some e.source_label ∧
        rowGet row "relation" = some e.relation ∧
        rowGet row "target_label" = some e.target_label) :=
  ⟨gene_from_row_ok_label, term_from_row_ok_label, edge_from_row_ok_fields⟩

/-- C3 (witness): the verbatim property evaluated on a concrete valid
row. -/
theorem c3_valid_rows_verbatim_witness :
    rowGet [("label", "TP53")] "label" = some (GeneNode.mk "TP53").label :=
  c3_valid_rows_verbatim.1 [("label", "TP53")] (GeneNode.mk "TP53") rfl

/-- C4: every loader returns exactly the in-order sequence of entities
built from the rows that pass validation — invalid rows are skipped with a
diagnostic and never abort the load, and deleting the invalid rows from the
input leaves the result unchanged. -/
theorem c4_loaders_skip_and_continue :
    (∀ (fname : String) (rows : List Row),
        (load_gene_nodes fname rows).1 =
          rows.filterMap fun r => (GeneNode.from_row r).toOption) ∧
    (∀ dir : List SrcFile,
        (load_term_nodes dir).1 =
          ((globCsv dir).map fun f =>
            f.2.filterMap fun r => (TermNode.from_row r).toOption).flatten) ∧
    (∀ dir : List SrcFile,
        (load_edges dir).1 =
          ((globCsv dir).map fun f =>
            f.2.filterMap fun r => (Edge.from_row r).toOption).flatten) ∧
    (∀ (fname : String) (rows : List Row),
        (load_gene_nodes fname
            (rows.filter fun r => (GeneNode.from_row r).toOption.isSome)).1 =
          (load_gene_nodes fname rows).1) := by
  refine ⟨fun fname rows => geneRowsLoop_entities fname 1 rows,
          fun dir => termFilesLoop_entities (globCsv dir),
          fun dir => edgeFilesLoop_entities (globCsv dir),
          fun fname rows => ?_⟩
  simp only [load_gene_nodes, geneRowsLoop_entities]
  exact filterMap_filter_isSome _ rows

/-- C5: the term and edge loaders return the concatenation of the
per-file valid-entity segments taken over the globbed files; the globbed
file list is sorted by file name and is a permutation of the directory's
`.csv` entries, so the segment order is exactly lexicographic file-name
order with within-file row order preserved. -/
theorem c5_multi_file_order (dir : List SrcFile) :
    (load_term_nodes dir).1 =
      ((globCsv dir).map fun f =>
        f.2.filterMap fun r => (TermNode.from_row r).toOption).flatten ∧
    (load_edges dir).1 =
      ((globCsv dir).map fun f =>
        f.2.filterMap fun r => (Edge.from_row r).toOption).flatten ∧
    (globCsv dir).Pairwise fileLe ∧
    (globCsv dir).Perm (dir.filter fun f => f.1.endsWith ".csv") :=
  ⟨termFilesLoop_entities (globCsv dir), edgeFilesLoop_entities (globCsv dir),
   globCsv_sorted dir, globCsv_perm dir⟩

/-- C6: a term or edge directory with no `.csv` entries (in particular an
empty or missing directory, whose glob yields nothing) loads as the empty
sequence with no diagnostics, and the resulting document's `terms` and
`triples` counts are 0. -/
theorem c6_empty_dir_yields_empty (dir : List SrcFile)
    (h : dir.filter (fun f => f.1.endsWith ".csv") = []) :
    load_term_nodes dir = ([], []) ∧ load_edges dir = ([], []) ∧
    ∀ gs : List GeneNode,
      (build_knowledge_graph gs (load_term_nodes dir).1
          (load_edges dir).1).head? =
        some ("counts",
          .obj [("genes", .num gs.length), ("terms", .num 0),
                ("triples", .num 0)]) := by
  have hglob : globCsv dir = [] := (h ▸ globCsv_perm dir).eq_nil
  have h1 : load_term_nodes dir = ([], []) := by
    unfold load_term_nodes
    rw [hglob]
    rfl
  have h2 : load_edges dir = ([], []) := by
    unfold load_edges
    rw [hglob]
    rfl
  refine ⟨h1, h2, fun gs => ?_⟩
  rw [h1, h2]
  rfl

/-- C6 (witness): the empty directory listing loads as the empty
sequence. -/
theorem c6_empty_dir_yields_empty_witness :
    load_term_nodes ([] : List SrcFile) = ([], []) :=
  (c6_empty_dir_yields_empty [] rfl).1

/-- C7: the document's `genes`, `terms` and `triples` arrays are exactly
the input sequences rendered element-wise in their original order
(decoding each array recovers the input list, so nothing is sorted,
deduplicated, merged or dropped); the assembler is a pure function of its
three inputs. -/
theorem c7_build_preserves_sequences (gs : List GeneNode)
    (ts : List TermNode) (es : List Edge) :
    List.lookup "genes" (build_knowledge_graph gs ts es) =
      some (.arr (gs.map geneJson)) ∧
    List.lookup "terms" (build_knowledge_graph gs ts es) =
      some (.arr (ts.map termJson)) ∧
    List.lookup "triples" (build_knowledge_graph gs ts es) =
      some (.arr (es.map edgeJson)) ∧
    (gs.map geneJson).filterMap geneOfJson = gs ∧
    (ts.map termJson).filterMap termOfJson = ts ∧
    (es.map edgeJson).filterMap edgeOfJson = es :=
  ⟨rfl, rfl, rfl, map_filterMap_gene gs, map_filterMap_term ts,
   map_filterMap_edge es⟩

/-- C8: the pipeline (load genes, terms, edges; assemble; serialize) is a
pure function of the input file contents: two runs over the same input
state produce byte-identical serialized output — the serializer has a
fixed key order and fixed two-space indentation, and no run-to-run state
exists. -/
theorem c8_pipeline_deterministic (r1 r2 : DataRoot) (h : r1 = r2) :
    runPipeline r1 = runPipeline r2 := by
  rw [h]

/-- C8 (witness): two runs on the same concrete input state agree. -/
theorem c8_pipeline_deterministic_witness :
    runPipeline sampleRoot = runPipeline sampleRoot :=
  c8_pipeline_deterministic sampleRoot sampleRoot rfl

/-- C9 (counterexample): the validation error raised for an invalid gene
row is the fixed string `geneMissingMsg`, which names the entity kind but
does not contain the file context — the file path appears only in the
loader's skip diagnostic, not in the raised error's message. -/
theorem c9_error_message_lacks_file_context :
    GeneNode.from_row [] = Except.error geneMissingMsg ∧
    (load_gene_nodes "data/gene_node/Gene.nodes.csv" [[]]).2 =
      [⟨"data/gene_node/Gene.nodes.csv", 1, geneMissingMsg⟩] ∧
    strContains geneMissingMsg "Gene" = true ∧
    strContains geneMissingMsg "Gene.nodes.csv" = false ∧
    strContains geneMissingMsg "data/gene_node/Gene.nodes.csv" = false := by
  refine ⟨rfl, rfl, by decide, by decide, by decide⟩

/-- C9 (amended): the raised validation error's message names the entity
kind (Gene, Term or Edge); the file context is carried by the loader's
skip diagnostic, which records the path of the file being read. -/
theorem c9_kind_in_error_file_in_diagnostic :
    (∀ (row : Row) (e : String), GeneNode.from_row row = .error e →
        strContains e "Gene" = true) ∧
    (∀ (row : Row) (e : String), TermNode.from_row row = .error e →
        strContains e "Term" = true) ∧
    (∀ (row : Row) (m : String), Edge.from_row row = .error m →
        strContains m "Edge" = true) ∧
    (∀ (fname : String) (rows : List Row),
        ∀ d ∈ (load_gene_nodes fname rows).2, d.fname = fname) ∧
    (∀ dir : List SrcFile, ∀ d ∈ (load_term_nodes dir).2,
        ∃ f ∈ globCsv dir, d.fname = f.1) ∧
    (∀ dir : List SrcFile, ∀ d ∈ (load_edges dir).2,
        ∃ f ∈ globCsv dir, d.fname = f.1) := by
  refine ⟨?_, ?_, ?_, ?_, ?_, ?_⟩
  · intro row e h
    rw [gene_from_row_error_msg row e h]
    decide
  · intro row e h
    rw [term_from_row_error_msg row e h]
    decide
  · intro row m h
    rw [edge_from_row_error_msg row m h]
    decide
  · intro fname rows
    exact geneRowsLoop_fname fname 1 rows
  · intro dir
    exact termFilesLoop_fname (globCsv dir)
  · intro dir
    exact edgeFilesLoop_fname (globCsv dir)

/-- C9 (witness): the amended property evaluated on a concrete invalid
row. -/
theorem c9_kind_in_error_file_in_diagnostic_witness :
    strContains geneMissingMsg "Gene" = true :=
  c9_kind_in_error_file_in_diagnostic.1 [] geneMissingMsg rfl

/-- C10: in every loader run, each data row contributes exactly one entity
or exactly one skip diagnostic, so the number of returned entities plus
the number of diagnostics equals the total number of data rows across all
processed files. -/
theorem c10_row_accounting :
    (∀ (fname : String) (rows : List Row),
        (load_gene_nodes fname rows).1.length +
          (load_gene_nodes fname rows).2.length = rows.length) ∧
    (∀ dir : List SrcFile,
        (load_term_nodes dir).1.length + (load_term_nodes dir).2.length =
          ((globCsv dir).map fun f => f.2.length).sum) ∧
    (∀ dir : List SrcFile,
        (load_edges dir).1.length + (load_edges dir).2.length =
          ((globCsv dir).map fun f => f.2.length).sum) :=
  ⟨fun fname rows => geneRowsLoop_length fname 1 rows,
   fun dir => termFilesLoop_length (globCsv dir),
   fun dir => edgeFilesLoop_length (globCsv dir)⟩

end KG

